import Mathlib

set_option autoImplicit false

/-!
Verification development for `lib/Dialects/LinalgTransform/IR/LinalgTransformOps.cpp`.

The file embeds the two code paths of interest:

* `verifySequenceOp` — walks the operation nested under a `SequenceOp`
  (post-order, the operation itself included, mirroring MLIR's default
  `Operation::walk`) and, for each result of each visited operation, checks
  `llvm::hasNItemsOrLess(result.getUses(), 1)`.  On the first result with more
  than one use it emits a diagnostic (primary error at the producing
  operation, one note per use at the using operation) and interrupts the walk;
  the verifier returns failure exactly when the walk was interrupted.

* `transform::ScopeOp::getSuccessorRegions` — appends a single region
  successor to the output vector: the op's own results when a predecessor
  region index is present, the body region otherwise.

Modelling choices:
* Operations form a tree: an operation has an identifier, a source location,
  an operand list, a result count and a list of regions.  MLIR regions hold
  blocks holding operations; the block level is flattened away (a region is
  its list of operations in program order) since the verifier's walk visits
  regions, blocks and operations uniformly and never inspects block
  structure.  Block arguments remain representable as `Value.blockArg`.
* A value is named by its producing operation's identifier and result index,
  or is a block argument; `getUses` recovers MLIR's use lists by scanning the
  operand lists of every operation of the whole program (`prog`), so uses are
  counted globally, not only inside the walked subtree.
* Diagnostics are data: the in-flight diagnostic built by the callback is
  returned alongside the `LogicalResult`, and `runVerifier` threads the
  mutable state (the program plus the diagnostic sink) explicitly.
-/

/-- A source location, as carried by an operation for diagnostics. -/
abbrev Loc := Nat

/-- An SSA value: the `idx`-th result of the operation with identifier
`opId`, or a block argument (a value not produced by any operation). -/
inductive Value : Type where
  | result (opId : Nat) (idx : Nat) : Value
  | blockArg (argId : Nat) : Value
deriving DecidableEq, Repr

/-- One use of a value: the identifier and location of the owning (using)
operation together with the operand position, as exposed by `OpOperand`
(`use.getOwner()`, `use.getOperandNumber()`). -/
structure Use where
  ownerId : Nat
  ownerLoc : Loc
  operandNumber : Nat
deriving DecidableEq, Repr

/-- A note attached to a diagnostic (`diag.attachNote(loc) << msg`). -/
structure Note where
  loc : Loc
  msg : String
deriving DecidableEq, Repr

/-- A diagnostic: primary location and message plus attached notes,
modelling `InFlightDiagnostic`. -/
structure Diagnostic where
  loc : Loc
  msg : String
  notes : List Note
deriving DecidableEq, Repr

/-- `mlir::LogicalResult`. -/
inductive LogicalResult : Type where
  | success : LogicalResult
  | failure : LogicalResult
deriving DecidableEq, Repr

mutual

/-- An operation: identifier, location, operands, number of results, and the
nested regions.  Each region is flattened to its list of operations. -/
inductive Op : Type where
  | mk (opId : Nat) (loc : Loc) (operands : List Value) (numResults : Nat)
      (regions : Regions) : Op
deriving DecidableEq, Repr

/-- The list of regions nested under an operation. -/
inductive Regions : Type where
  | nil : Regions
  | cons (r : Ops) (rest : Regions) : Regions
deriving DecidableEq, Repr

/-- The operations of one region, in program order. -/
inductive Ops : Type where
  | nil : Ops
  | cons (o : Op) (rest : Ops) : Ops
deriving DecidableEq, Repr

end

def Op.opId : Op → Nat
  | .mk i _ _ _ _ => i

def Op.loc : Op → Loc
  | .mk _ l _ _ _ => l

def Op.operands : Op → List Value
  | .mk _ _ os _ _ => os

def Op.numResults : Op → Nat
  | .mk _ _ _ n _ => n

def Op.regions : Op → Regions
  | .mk _ _ _ _ rs => rs

mutual

/-- All operations visited by `op.walk` starting at `o`, in visit order:
MLIR's default walk is post-order (nested operations first, then the
operation itself) and includes the operation the walk starts at. -/
def Op.allOps : Op → List Op
  | .mk i l os n rs => Regions.allOps rs ++ [.mk i l os n rs]

def Regions.allOps : Regions → List Op
  | .nil => []
  | .cons r rest => Ops.allOps r ++ Regions.allOps rest

def Ops.allOps : Ops → List Op
  | .nil => []
  | .cons o rest => Op.allOps o ++ Ops.allOps rest

end

/-- The uses of `v` held by the operands of the single operation `o`. -/
def Op.localUses (o : Op) (v : Value) : List Use :=
  (o.operands.enum.filter (fun p => decide (p.2 = v))).map
    (fun p => ⟨o.opId, o.loc, p.1⟩)

/-- All uses of `v` anywhere in the program `prog`, mirroring the IR's use
list `result.getUses()`: every operand of every operation is scanned, so a
use outside a walked subtree still counts. -/
def getUses (prog : Op) (v : Value) : List Use :=
  prog.allOps.flatMap (fun o => o.localUses v)

/-- Number of uses of `v` in the whole program. -/
def numUses (prog : Op) (v : Value) : Nat :=
  (getUses prog v).length

/-- The body of the callback's loop `for (OpResult result :
child->getResults())`: the first result index of `child` failing
`llvm::hasNItemsOrLess(result.getUses(), 1)`, i.e. with use count above one. -/
def firstBadResult (prog child : Op) : Option Nat :=
  (List.range child.numResults).find?
    (fun i => decide (1 < numUses prog (Value.result child.opId i)))

/-- All result indices of `child` with more than one use, in index order. -/
def badIndices (prog child : Op) : List Nat :=
  (List.range child.numResults).filter
    (fun i => decide (1 < numUses prog (Value.result child.opId i)))

/-- The note attached for one use: located at the using operation, naming the
operand position (`"used here as operand #M"`). -/
def noteForUse (u : Use) : Note :=
  ⟨u.ownerLoc, "used here as operand #" ++ toString u.operandNumber⟩

/-- The diagnostic built for result `i` of `child`: primary error at
`child`'s location with message `"result #N has more than one use"`, one
note per use of that result. -/
def diagForResult (prog child : Op) (i : Nat) : Diagnostic :=
  { loc := child.loc
    msg := "result #" ++ toString i ++ " has more than one use"
    notes := (getUses prog (Value.result child.opId i)).map noteForUse }

/-- The walk callback of `verifySequenceOp`: `some d` models
`WalkResult::interrupt()` reached after emitting the diagnostic `d`; `none`
models `WalkResult::advance()`. -/
def sequenceCallback (prog child : Op) : Option Diagnostic :=
  (firstBadResult prog child).map (diagForResult prog child)

mutual

/-- Post-order walk with interruption: nested operations are visited first;
the first callback interruption stops the walk and carries the emitted
diagnostic. -/
def Op.walkCheck (prog : Op) : Op → Option Diagnostic
  | .mk i l os n rs =>
    match Regions.walkCheck prog rs with
    | some d => some d
    | none => sequenceCallback prog (.mk i l os n rs)

def Regions.walkCheck (prog : Op) : Regions → Option Diagnostic
  | .nil => none
  | .cons r rest =>
    match Ops.walkCheck prog r with
    | some d => some d
    | none => Regions.walkCheck prog rest

def Ops.walkCheck (prog : Op) : Ops → Option Diagnostic
  | .nil => none
  | .cons o rest =>
    match Op.walkCheck prog o with
    | some d => some d
    | none => Ops.walkCheck prog rest

end

/-- `verifySequenceOp`: returns `failure` exactly when the walk was
interrupted (`failure(result.wasInterrupted())`), paired with the list of
diagnostics emitted during the walk.  `prog` is the whole program in which
uses are resolved; `op` is the `SequenceOp` being verified. -/
def verifySequenceOp (prog op : Op) : LogicalResult × List Diagnostic :=
  match Op.walkCheck prog op with
  | some d => (.failure, [d])
  | none => (.success, [])

/-- The state the verifier runs in: the program (the instruction tree) and
the diagnostic sink of the host framework. -/
structure VerifierState where
  program : Op
  diags : List Diagnostic
deriving DecidableEq, Repr

/-- Running the verifier on `op` inside state `s`: diagnostics are appended
to the sink; the tree itself is only read. -/
def runVerifier (s : VerifierState) (op : Op) : VerifierState × LogicalResult :=
  match Op.walkCheck s.program op with
  | some d => ({ s with diags := s.diags ++ [d] }, .failure)
  | none => (s, .success)

/-- An attribute operand as passed to `getSuccessorRegions`
(`ArrayRef<Attribute>`): possibly-null constant value, never inspected. -/
abbrev Attr := Option Nat

/-- The `transform::ScopeOp` data relevant to its region-successor query:
its single body region and its own result values. -/
structure ScopeOp where
  body : Ops
  results : List Value
deriving DecidableEq, Repr

/-- One entry of the successor list: a nested region (`&body()`) or the
parent op's own results (`getResults()`). -/
inductive RegionSuccessor : Type where
  | toRegion (r : Ops) : RegionSuccessor
  | toParentResults (results : List Value) : RegionSuccessor
deriving DecidableEq, Repr

/-- `transform::ScopeOp::getSuccessorRegions`: appends to the caller's
vector `regions` the op's results when `index` is present, the body region
otherwise. -/
def ScopeOp.getSuccessorRegions (op : ScopeOp) (index : Option Nat)
    (operands : List Attr) (regions : List RegionSuccessor) :
    List RegionSuccessor :=
  match index with
  | some _ => regions ++ [RegionSuccessor.toParentResults op.results]
  | none => regions ++ [RegionSuccessor.toRegion op.body]

/-- Whether an operation with identifier `oid` occurs in the subtree walked
from `root`. -/
def insideSubtree (root : Op) (oid : Nat) : Bool :=
  root.allOps.any (fun o => o.opId == oid)

/-- Whether `v` is defined outside the subtree walked from `root`: a block
argument, or a result of an operation not visited by the walk. -/
def definedOutside (root : Op) : Value → Bool
  | .blockArg _ => true
  | .result oid _ => root.allOps.all (fun c => c.opId != oid)

/-- All multi-use violations in the subtree walked from `root`, in traversal
order: pairs of a visited operation and a result index with use count above
one. -/
def violations (prog root : Op) : List (Op × Nat) :=
  root.allOps.flatMap (fun c => (badIndices prog c).map (fun i => (c, i)))

/-- A first-match search equals the head of the filtered list. -/
theorem find_eq_head_filter {α : Type} (p : α → Bool) (l : List α) :
    l.find? p = (l.filter p).head? := by
  induction l with
  | nil => rfl
  | cons a t ih =>
    simp only [List.find?_cons, List.filter_cons]
    cases h : p a with
    | true => rfl
    | false => simpa using ih

/-- Mapping over the result of a first-`some` search pushes inside. -/
theorem map_findSome {α β γ : Type} (f : β → γ) (g : α → Option β)
    (l : List α) :
    (l.findSome? g).map f = l.findSome? (fun a => (g a).map f) := by
  induction l with
  | nil => rfl
  | cons a t ih =>
    cases h : g a with
    | some b => simp [List.findSome?_cons, h]
    | none => simp [List.findSome?_cons, h, ih]

/-- The first over-used result index is the head of the bad-index list. -/
theorem firstBadResult_eq_head (prog child : Op) :
    firstBadResult prog child = (badIndices prog child).head? := by
  rw [firstBadResult, badIndices, find_eq_head_filter]

/-- The callback's outcome, phrased through the per-op violation list. -/
theorem sequenceCallback_eq_head (prog c : Op) :
    sequenceCallback prog c =
      (((badIndices prog c).map (fun i => (c, i))).head?).map
        (fun p : Op × Nat => diagForResult prog p.1 p.2) := by
  rw [sequenceCallback, firstBadResult_eq_head, List.head?_map, Option.map_map]
  rfl

mutual

/-- The interrupted walk returns the first `some` of the callback over the
visit order. -/
theorem op_walkCheck_eq_findSome (prog : Op) :
    ∀ o : Op, Op.walkCheck prog o = o.allOps.findSome? (sequenceCallback prog)
  | .mk i l os n rs => by
    rw [Op.walkCheck, Op.allOps, List.findSome?_append,
      regions_walkCheck_eq_findSome prog rs]
    cases (Regions.allOps rs).findSome? (sequenceCallback prog) with
    | some d => rfl
    | none =>
      rw [List.findSome?_cons]
      cases sequenceCallback prog (.mk i l os n rs) <;> rfl

theorem regions_walkCheck_eq_findSome (prog : Op) :
    ∀ rs : Regions,
      Regions.walkCheck prog rs =
        (Regions.allOps rs).findSome? (sequenceCallback prog)
  | .nil => rfl
  | .cons r rest => by
    rw [Regions.walkCheck, Regions.allOps, List.findSome?_append,
      ops_walkCheck_eq_findSome prog r, regions_walkCheck_eq_findSome prog rest]
    cases (Ops.allOps r).findSome? (sequenceCallback prog) <;> rfl

theorem ops_walkCheck_eq_findSome (prog : Op) :
    ∀ os : Ops,
      Ops.walkCheck prog os =
        (Ops.allOps os).findSome? (sequenceCallback prog)
  | .nil => rfl
  | .cons o rest => by
    rw [Ops.walkCheck, Ops.allOps, List.findSome?_append,
      op_walkCheck_eq_findSome prog o, ops_walkCheck_eq_findSome prog rest]
    cases (Op.allOps o).findSome? (sequenceCallback prog) <;> rfl

end

/-- The walk's outcome is determined by the first violation in traversal
order: its diagnostic when one exists, `none` otherwise. -/
theorem walkCheck_eq_violations_head (prog root : Op) :
    Op.walkCheck prog root =
      (violations prog root).head?.map
        (fun p : Op × Nat => diagForResult prog p.1 p.2) := by
  rw [op_walkCheck_eq_findSome, violations, List.head?_flatMap, map_findSome]
  have hfun :
      (fun c => (((badIndices prog c).map (fun i => (c, i))).head?).map
        (fun p : Op × Nat => diagForResult prog p.1 p.2)) =
      sequenceCallback prog := by
    funext c
    rw [sequenceCallback_eq_head]
  rw [hfun]

/-- No violations exist exactly when every result of every visited operation
has at most one use. -/
theorem violations_eq_nil_iff (prog root : Op) :
    violations prog root = [] ↔
      ∀ c ∈ root.allOps, ∀ i < c.numResults,
        numUses prog (Value.result c.opId i) ≤ 1 := by
  simp only [violations, List.flatMap_eq_nil_iff, List.map_eq_nil_iff,
    badIndices, List.filter_eq_nil_iff, List.mem_range, decide_eq_true_eq,
    Nat.not_lt]

/-- A list holding two distinct elements has length at least two. -/
theorem two_le_length_of_mem {α : Type} {a b : α} {l : List α}
    (ha : a ∈ l) (hb : b ∈ l) (hne : a ≠ b) : 2 ≤ l.length := by
  cases l with
  | nil => cases ha
  | cons x t =>
    cases t with
    | nil =>
      simp only [List.mem_singleton] at ha hb
      exact absurd (ha.trans hb.symm) hne
    | cons y u => simp [List.length_cons]

/-- The walk starting at `o` visits `o` itself. -/
theorem Op.self_mem_allOps (o : Op) : o ∈ o.allOps := by
  cases o with
  | mk i l os n rs =>
    rw [Op.allOps]
    exact List.mem_append_right _ (List.mem_singleton.mpr rfl)

/-- When every visited result is used at most once, the verifier succeeds
with no diagnostic emitted. -/
theorem verify_success_of_no_violation (prog root : Op)
    (h : ∀ c ∈ root.allOps, ∀ i < c.numResults,
      numUses prog (Value.result c.opId i) ≤ 1) :
    verifySequenceOp prog root = (LogicalResult.success, []) := by
  have hw : Op.walkCheck prog root = none := by
    rw [walkCheck_eq_violations_head, (violations_eq_nil_iff prog root).mpr h]
    rfl
  rw [verifySequenceOp, hw]

/-- A doubly-used result of a visited operation forces the verifier to
fail. -/
theorem verify_fails_of_violation (prog root c : Op) (i : Nat)
    (hc : c ∈ root.allOps) (hi : i < c.numResults)
    (h2 : 2 ≤ numUses prog (Value.result c.opId i)) :
    (verifySequenceOp prog root).1 = LogicalResult.failure := by
  have hvne : violations prog root ≠ [] := by
    rw [Ne, violations_eq_nil_iff]
    intro hall
    have := hall c hc i hi
    omega
  cases hv : violations prog root with
  | nil => exact absurd hv hvne
  | cons p rest =>
    have hw : Op.walkCheck prog root = some (diagForResult prog p.1 p.2) := by
      rw [walkCheck_eq_violations_head, hv]
      rfl
    rw [verifySequenceOp, hw]

/-- Builds the operation list of a region from a plain list. -/
def Ops.ofList : List Op → Ops
  | [] => .nil
  | o :: rest => .cons o (Ops.ofList rest)

/-- Builds a single-region list from the region's operations. -/
def oneRegion (body : List Op) : Regions :=
  .cons (Ops.ofList body) .nil

/-- Producer with one result, used exactly once. -/
def opA : Op := .mk 2 20 [] 1 .nil

/-- Single user of `opA`'s result. -/
def opB : Op := .mk 3 30 [Value.result 2 0] 0 .nil

/-- A sequence whose body uses every value exactly once. -/
def seqGood : Op := .mk 1 10 [] 0 (oneRegion [opA, opB])

/-- Enclosing program of `seqGood`. -/
def progGood : Op := .mk 0 0 [] 0 (oneRegion [seqGood])

/-- Producer with one result, used twice below. -/
def opD : Op := .mk 2 20 [] 1 .nil

/-- First user of `opD`'s result (operand 0). -/
def opE : Op := .mk 3 30 [Value.result 2 0] 0 .nil

/-- Second user of `opD`'s result (operand 1). -/
def opF : Op := .mk 4 40 [Value.blockArg 0, Value.result 2 0] 0 .nil

/-- A sequence with exactly one multi-use violation. -/
def seqOneBad : Op := .mk 1 10 [] 0 (oneRegion [opD, opE, opF])

/-- Enclosing program of `seqOneBad`. -/
def progOneBad : Op := .mk 0 0 [] 0 (oneRegion [seqOneBad])

/-- First doubly-used producer in a two-violation body. -/
def opG : Op := .mk 2 20 [] 1 .nil

/-- First user of `opG`'s result. -/
def opH : Op := .mk 3 30 [Value.result 2 0] 0 .nil

/-- Second user of `opG`'s result. -/
def opH2 : Op := .mk 4 40 [Value.result 2 0] 0 .nil

/-- Second doubly-used producer, later in traversal order. -/
def opK : Op := .mk 5 50 [] 1 .nil

/-- First user of `opK`'s result. -/
def opL : Op := .mk 6 60 [Value.result 5 0] 0 .nil

/-- Second user of `opK`'s result. -/
def opM : Op := .mk 7 70 [Value.result 5 0] 0 .nil

/-- A sequence with two independent multi-use violations. -/
def seqTwoBad : Op := .mk 1 10 [] 0 (oneRegion [opG, opH, opH2, opK, opL, opM])

/-- Enclosing program of `seqTwoBad`. -/
def progTwoBad : Op := .mk 0 0 [] 0 (oneRegion [seqTwoBad])

/-- Producer inside the walked subtree whose result is also used outside. -/
def opA7 : Op := .mk 2 20 [] 1 .nil

/-- In-subtree user of `opA7`'s result. -/
def opB7 : Op := .mk 3 30 [Value.result 2 0] 0 .nil

/-- Sequence containing `opA7` and its in-subtree user only. -/
def seq7 : Op := .mk 1 10 [] 0 (oneRegion [opA7, opB7])

/-- Out-of-subtree user of `opA7`'s result, a sibling of the sequence. -/
def opX7 : Op := .mk 6 60 [Value.result 2 0] 0 .nil

/-- Program where one use of `opA7`'s result lies outside the sequence. -/
def prog7 : Op := .mk 0 0 [] 0 (oneRegion [seq7, opX7])

/-- Body producer of `seq8`, used exactly once. -/
def opA8 : Op := .mk 2 20 [] 1 .nil

/-- Single user of `opA8`'s result. -/
def opB8 : Op := .mk 3 30 [Value.result 2 0] 0 .nil

/-- A sequence with one result of its own and a clean body. -/
def seq8 : Op := .mk 1 10 [] 1 (oneRegion [opA8, opB8])

/-- First outside user of `seq8`'s own result. -/
def opY8 : Op := .mk 7 70 [Value.result 1 0] 0 .nil

/-- Second outside user of `seq8`'s own result. -/
def opZ8 : Op := .mk 8 80 [Value.result 1 0] 0 .nil

/-- Program where only the sequence's own result is doubly used. -/
def prog8 : Op := .mk 0 0 [] 0 (oneRegion [seq8, opY8, opZ8])

/-- First user of a block argument defined outside the visited operations. -/
def opP10 : Op := .mk 2 20 [Value.blockArg 0] 0 .nil

/-- Second user of the same block argument. -/
def opQ10 : Op := .mk 3 30 [Value.blockArg 0] 0 .nil

/-- Sequence whose only doubly-used value is a block argument. -/
def seq10 : Op := .mk 1 10 [] 0 (oneRegion [opP10, opQ10])

/-- Enclosing program of `seq10`. -/
def prog10 : Op := .mk 0 0 [] 0 (oneRegion [seq10])

/-- A concrete scoping construct for the successor-query witnesses. -/
def scope9 : ScopeOp :=
  ⟨Ops.ofList [Op.mk 9 90 [] 0 .nil], [Value.result 10 0]⟩

/-- C1: for every instruction tree in which no result value produced by a
visited operation has more than one use, the sequence verifier returns
success (and emits no diagnostic). -/
theorem claimC1_all_single_use_success (prog root : Op)
    (h : ∀ c ∈ root.allOps, ∀ i < c.numResults,
      numUses prog (Value.result c.opId i) ≤ 1) :
    verifySequenceOp prog root = (LogicalResult.success, []) :=
  verify_success_of_no_violation prog root h

/-- Witness for C1 on a concrete single-use tree. -/
theorem claimC1_witness :
    (∀ c ∈ seqGood.allOps, ∀ i < c.numResults,
      numUses progGood (Value.result c.opId i) ≤ 1) ∧
    verifySequenceOp progGood seqGood = (LogicalResult.success, []) :=
  ⟨by decide, claimC1_all_single_use_success progGood seqGood (by decide)⟩

/-- C2: for every instruction tree containing a multi-use violation, the
verifier returns failure and emits exactly one diagnostic: primary error at
the producing operation's location with message `"result #N has more than
one use"`, and one note per use of the value (the first use included), each
located at the using operation with message `"used here as operand #M"`. -/
theorem claimC2_failure_diagnostic (prog root c : Op) (i : Nat)
    (rest : List (Op × Nat))
    (h : violations prog root = (c, i) :: rest) :
    verifySequenceOp prog root =
      (LogicalResult.failure,
        [{ loc := c.loc
           msg := "result #" ++ toString i ++ " has more than one use"
           notes := (getUses prog (Value.result c.opId i)).map
             (fun u => { loc := u.ownerLoc
                         msg := "used here as operand #"
                           ++ toString u.operandNumber }) }]) := by
  have hw : Op.walkCheck prog root = some (diagForResult prog c i) := by
    rw [walkCheck_eq_violations_head, h]
    rfl
  rw [verifySequenceOp, hw]
  rfl

/-- Witness for C2: the double use of `opD`'s result is reported with one
note per use. -/
theorem claimC2_witness :
    violations progOneBad seqOneBad = [(opD, 0)] ∧
    verifySequenceOp progOneBad seqOneBad =
      (LogicalResult.failure,
        [{ loc := opD.loc
           msg := "result #" ++ toString 0 ++ " has more than one use"
           notes := (getUses progOneBad (Value.result opD.opId 0)).map
             (fun u => { loc := u.ownerLoc
                         msg := "used here as operand #"
                           ++ toString u.operandNumber }) }]) :=
  ⟨by decide,
    claimC2_failure_diagnostic progOneBad seqOneBad opD 0 [] (by decide)⟩

/-- C3: with two or more distinct violations in the tree, the verifier stops
at the first offending result in traversal order and reports only that one:
the diagnostic list is exactly the singleton for the first violation. -/
theorem claimC3_short_circuit (prog root c : Op) (i : Nat)
    (rest : List (Op × Nat))
    (h : violations prog root = (c, i) :: rest) (hrest : rest ≠ []) :
    verifySequenceOp prog root =
      (LogicalResult.failure, [diagForResult prog c i]) := by
  have hw : Op.walkCheck prog root = some (diagForResult prog c i) := by
    rw [walkCheck_eq_violations_head, h]
    rfl
  rw [verifySequenceOp, hw]

/-- Witness for C3: of the two violations in `seqTwoBad`, only the first one
(`opG`, earlier in traversal order) is reported. -/
theorem claimC3_witness :
    violations progTwoBad seqTwoBad = [(opG, 0), (opK, 0)] ∧
    verifySequenceOp progTwoBad seqTwoBad =
      (LogicalResult.failure, [diagForResult progTwoBad opG 0]) :=
  ⟨by decide,
    claimC3_short_circuit progTwoBad seqTwoBad opG 0 [(opK, 0)]
      (by decide) (by decide)⟩

/-- C4: the region-successor query returns exactly one entry: the body
region when no predecessor index is given, the construct's own results when
any index is given. -/
theorem claimC4_single_successor (op : ScopeOp) (index : Option Nat)
    (operands : List Attr) :
    op.getSuccessorRegions index operands [] =
      (match index with
       | none => [RegionSuccessor.toRegion op.body]
       | some _ => [RegionSuccessor.toParentResults op.results]) := by
  cases index <;> rfl

/-- C5: the region-successor query is total: on every input it returns by
appending exactly one successor descriptor, reaching no error branch. -/
theorem claimC5_total_single_append (op : ScopeOp) (index : Option Nat)
    (operands : List Attr) (acc : List RegionSuccessor) :
    (op.getSuccessorRegions index operands acc).length = acc.length + 1 := by
  cases index <;> simp [ScopeOp.getSuccessorRegions]

/-- C6: the verifier never mutates the instruction tree, and running it a
second time on the unchanged tree yields the same result. -/
theorem claimC6_no_mutation_idempotent (s : VerifierState) (op : Op) :
    (runVerifier s op).1.program = s.program ∧
      (runVerifier (runVerifier s op).1 op).2 = (runVerifier s op).2 := by
  cases h : Op.walkCheck s.program op <;> simp [runVerifier, h]

/-- C7: uses are counted over the whole program: a result of a visited
operation with one use inside the walked subtree and one use outside it
makes the verifier fail. -/
theorem claimC7_global_uses (prog root c : Op) (i : Nat) (uA uB : Use)
    (hc : c ∈ root.allOps) (hi : i < c.numResults)
    (hA : uA ∈ getUses prog (Value.result c.opId i))
    (hB : uB ∈ getUses prog (Value.result c.opId i))
    (hin : insideSubtree root uA.ownerId = true)
    (hout : insideSubtree root uB.ownerId = false) :
    (verifySequenceOp prog root).1 = LogicalResult.failure := by
  have hne : uA ≠ uB := by
    intro he
    rw [he, hout] at hin
    exact Bool.false_ne_true hin
  have h2 : 2 ≤ numUses prog (Value.result c.opId i) :=
    two_le_length_of_mem hA hB hne
  exact verify_fails_of_violation prog root c i hc hi h2

/-- Witness for C7: one use of `opA7`'s result sits inside `seq7`, the other
in a sibling outside it; verification of `seq7` fails. -/
theorem claimC7_witness :
    opA7 ∈ seq7.allOps ∧ 0 < opA7.numResults ∧
      (⟨3, 30, 0⟩ : Use) ∈ getUses prog7 (Value.result opA7.opId 0) ∧
      (⟨6, 60, 0⟩ : Use) ∈ getUses prog7 (Value.result opA7.opId 0) ∧
      insideSubtree seq7 3 = true ∧ insideSubtree seq7 6 = false ∧
      (verifySequenceOp prog7 seq7).1 = LogicalResult.failure :=
  ⟨by decide, by decide, by decide, by decide, by decide, by decide,
    claimC7_global_uses prog7 seq7 opA7 0 ⟨3, 30, 0⟩ ⟨6, 60, 0⟩
      (by decide) (by decide) (by decide) (by decide) (by decide)
      (by decide)⟩

/-- C8: the walk includes the root: when the sequencing construct's own
result is used more than once, verification fails even though every value
inside the body is used at most once. -/
theorem claimC8_root_checked (prog root : Op) (i : Nat)
    (hi : i < root.numResults)
    (hroot : 2 ≤ numUses prog (Value.result root.opId i))
    (hbody : ∀ c ∈ Regions.allOps root.regions, ∀ j < c.numResults,
      numUses prog (Value.result c.opId j) ≤ 1) :
    (verifySequenceOp prog root).1 = LogicalResult.failure :=
  verify_fails_of_violation prog root root i (Op.self_mem_allOps root) hi hroot

/-- Witness for C8: `seq8`'s own result is used by two outside operations
while its body is clean; verifying `seq8` fails. -/
theorem claimC8_witness :
    0 < seq8.numResults ∧
      2 ≤ numUses prog8 (Value.result seq8.opId 0) ∧
      (∀ c ∈ Regions.allOps seq8.regions, ∀ j < c.numResults,
        numUses prog8 (Value.result c.opId j) ≤ 1) ∧
      (verifySequenceOp prog8 seq8).1 = LogicalResult.failure :=
  ⟨by decide, by decide, by decide,
    claimC8_root_checked prog8 seq8 0 (by decide) (by decide) (by decide)⟩

/-- C9: the successor query depends only on whether a predecessor index is
present: two invocations agreeing on index-presence return the same list,
whatever the index values and whatever the operand attributes. -/
theorem claimC9_presence_only (op : ScopeOp) (i j : Option Nat)
    (ops1 ops2 : List Attr) (acc : List RegionSuccessor)
    (h : i.isSome = j.isSome) :
    op.getSuccessorRegions i ops1 acc = op.getSuccessorRegions j ops2 acc := by
  cases i <;> cases j <;> first | rfl | simp at h

/-- Witness for C9: indices 0 and 5 with different operand lists give the
same successor list. -/
theorem claimC9_witness :
    (some 0 : Option Nat).isSome = (some 5 : Option Nat).isSome ∧
      scope9.getSuccessorRegions (some 0) [] [] =
        scope9.getSuccessorRegions (some 5) [some 3, none] [] :=
  ⟨rfl,
    claimC9_presence_only scope9 (some 0) (some 5) [] [some 3, none] [] rfl⟩

/-- C10: only results of visited operations are checked: if every such
result is used at most once, the verifier succeeds, however often a value
defined outside the visited operations (such as a block argument) is used
inside the body. -/
theorem claimC10_outside_values_ignored (prog root : Op) (v : Value)
    (h : ∀ c ∈ root.allOps, ∀ i < c.numResults,
      numUses prog (Value.result c.opId i) ≤ 1)
    (hv : definedOutside root v = true)
    (hmany : 2 ≤ numUses prog v) :
    verifySequenceOp prog root = (LogicalResult.success, []) :=
  verify_success_of_no_violation prog root h

/-- Witness for C10: the block argument used twice inside `seq10` is not
flagged; verification succeeds. -/
theorem claimC10_witness :
    (∀ c ∈ seq10.allOps, ∀ i < c.numResults,
      numUses prog10 (Value.result c.opId i) ≤ 1) ∧
      definedOutside seq10 (Value.blockArg 0) = true ∧
      2 ≤ numUses prog10 (Value.blockArg 0) ∧
      verifySequenceOp prog10 seq10 = (LogicalResult.success, []) :=
  ⟨by decide, by decide, by decide,
    claimC10_outside_values_ignored prog10 seq10 (Value.blockArg 0)
      (by decide) (by decide) (by decide)⟩
